import Mathlib

/-!
Verification of the FlavorMetrics restaurant-analytics core against its
natural-language specification.

The analytic routines of the repository (menu engineering, demand
forecasting, churn ranking, labor allocation) are shallowly embedded as
executable Lean definitions over `ℚ`/`ℤ`: JavaScript numbers are modelled
as exact rationals, `Math.round` as `⌊x + 1/2⌋` (JS rounds half up, also
for negative arguments), `Math.max(0, ·)` as `max 0 ·`, and JavaScript's
falsy-default idiom `v || d` is modelled explicitly where it occurs.
Database query results are passed in as lists; `Map` state is an
association list or a total function with default `0`.
-/

namespace FlavorMetrics

/-- JS `Math.round`: round half toward positive infinity. -/
def jround (x : ℚ) : ℤ := ⌊x + 1/2⌋

/-- JS `v || 1` applied to the result of a division `sum / len`:
`0` is falsy and `NaN` (which in rationals shows up as the junk value
`sum / 0 = 0` exactly when `len = 0`) is falsy, both defaulting to `1`. -/
def jsOr1 (x : ℚ) : ℚ := if x = 0 then 1 else x

/-! ### Menu engineering (src/server/src/routes/menu.ts, GET /api/menu/engineering) -/

/-- Per-item aggregated sales over the date range (one entry of the
`itemMetrics` map built from non-void order items). -/
structure ItemMetrics where
  quantity : ℚ
  revenue : ℚ
  cost : ℚ
  profit : ℚ
deriving DecidableEq

/-- Default metrics for a menu item with no sales in range
(`itemMetrics.get(item.id) || \x7b quantity: 0, revenue: 0, cost: 0, profit: 0 \x7d`). -/
def zeroMetrics : ItemMetrics := ⟨0, 0, 0, 0⟩

/-- Active menu item row (fields consumed by the engineering analysis). -/
structure MenuItem where
  id : ℕ
  name : String
  price : ℚ
  cost : ℚ
deriving DecidableEq

/-- `avgQuantity = allMetrics.reduce((s, m) => s + m.quantity, 0) / allMetrics.length || 1`. -/
def avgQuantityOf (allMetrics : List ItemMetrics) : ℚ :=
  jsOr1 ((allMetrics.map (·.quantity)).sum / allMetrics.length)

/-- `avgProfit = allMetrics.reduce((s, m) => s + m.profit, 0) / allMetrics.length || 1`. -/
def avgProfitOf (allMetrics : List ItemMetrics) : ℚ :=
  jsOr1 ((allMetrics.map (·.profit)).sum / allMetrics.length)

/-- The if/else classification chain of the engineering route, verbatim:
`popularity >= 1 && profitability >= 1` → Star, etc. -/
def classify (popularity profitability : ℚ) : String :=
  if 1 ≤ popularity ∧ 1 ≤ profitability then "Star"
  else if 1 ≤ popularity ∧ profitability < 1 then "Plowhorse"
  else if popularity < 1 ∧ 1 ≤ profitability then "Puzzle"
  else "Dog"

/-- One record of the `analysis` array returned by GET /api/menu/engineering.
The raw (unrounded) popularity/profitability ratios are kept alongside the
two-decimal reported indices because classification uses the raw values. -/
structure EngineeringEntry where
  id : ℕ
  name : String
  price : ℚ
  cost : ℚ
  quantitySold : ℚ
  revenue : ℚ
  profit : ℚ
  contributionMargin : ℚ
  popularity : ℚ
  profitability : ℚ
  popularityIndex : ℚ
  profitabilityIndex : ℚ
  classification : String
deriving DecidableEq

/-- The body of `items.map` in the engineering route: margins, indices and
classification for one item given the precomputed averages. -/
def analysisEntry (avgQ avgP : ℚ) (item : MenuItem) (m : ItemMetrics) : EngineeringEntry :=
  let contributionMargin : ℚ :=
    if 0 < m.revenue then ((m.revenue - m.cost) / m.revenue) * 100 else 0
  let popularity := m.quantity / avgQ
  let profitability := m.profit / avgP
  { id := item.id
    name := item.name
    price := item.price
    cost := item.cost
    quantitySold := m.quantity
    revenue := (jround (m.revenue * 100) : ℚ) / 100
    profit := (jround (m.profit * 100) : ℚ) / 100
    contributionMargin := (jround (contributionMargin * 10) : ℚ) / 10
    popularity := popularity
    profitability := profitability
    popularityIndex := (jround (popularity * 100) : ℚ) / 100
    profitabilityIndex := (jround (profitability * 100) : ℚ) / 100
    classification := classify popularity profitability }

/-- `itemMetrics.get(item.id) || zeroMetrics`: first-match lookup in the
association list, defaulting to zero metrics for items with no sales. -/
def metricsFor (itemMetrics : List (ℕ × ItemMetrics)) (id : ℕ) : ItemMetrics :=
  match itemMetrics with
  | [] => zeroMetrics
  | (k, m) :: rest => if k = id then m else metricsFor rest id

/-- The full `analysis` array: items mapped over their aggregated metrics
(`itemMetrics` is an association list keyed by menu-item id; absent keys
default to `zeroMetrics`). -/
def menuAnalysis (items : List MenuItem) (itemMetrics : List (ℕ × ItemMetrics)) :
    List EngineeringEntry :=
  let allMetrics := itemMetrics.map Prod.snd
  let avgQ := avgQuantityOf allMetrics
  let avgP := avgProfitOf allMetrics
  items.map fun item => analysisEntry avgQ avgP item (metricsFor itemMetrics item.id)

/-- `summary.starCount = analysis.filter(a => a.classification === 'Star').length`. -/
def starCount (analysis : List EngineeringEntry) : ℕ :=
  (analysis.filter (fun a => a.classification = "Star")).length

/-- `summary.plowhorseCount`. -/
def plowhorseCount (analysis : List EngineeringEntry) : ℕ :=
  (analysis.filter (fun a => a.classification = "Plowhorse")).length

/-- `summary.puzzleCount`. -/
def puzzleCount (analysis : List EngineeringEntry) : ℕ :=
  (analysis.filter (fun a => a.classification = "Puzzle")).length

/-- `summary.dogCount`. -/
def dogCount (analysis : List EngineeringEntry) : ℕ :=
  (analysis.filter (fun a => a.classification = "Dog")).length

lemma classify_mem_four (p q : ℚ) :
    classify p q = "Star" ∨ classify p q = "Plowhorse" ∨
    classify p q = "Puzzle" ∨ classify p q = "Dog" := by
  unfold classify
  split_ifs <;> simp

lemma counts_sum_of_mem_four (l : List EngineeringEntry)
    (h : ∀ e ∈ l, e.classification = "Star" ∨ e.classification = "Plowhorse" ∨
        e.classification = "Puzzle" ∨ e.classification = "Dog") :
    starCount l + plowhorseCount l + puzzleCount l + dogCount l = l.length := by
  induction l with
  | nil => rfl
  | cons a l ih =>
    have ha := h a (List.mem_cons_self a l)
    have hl := ih fun e he => h e (List.mem_cons_of_mem a he)
    unfold starCount plowhorseCount puzzleCount dogCount at hl ⊢
    simp only [List.filter_cons, List.length_cons]
    rcases ha with h1 | h1 | h1 | h1 <;> simp [h1] <;> omega

/-- C3: every record of the menu-engineering analysis carries exactly one of
the four classifications, and the four summary counts add up to the number
of analyzed items. -/
theorem menu_classification_partition (items : List MenuItem)
    (itemMetrics : List (ℕ × ItemMetrics)) :
    (∀ e ∈ menuAnalysis items itemMetrics,
        e.classification = "Star" ∨ e.classification = "Plowhorse" ∨
        e.classification = "Puzzle" ∨ e.classification = "Dog") ∧
    starCount (menuAnalysis items itemMetrics) +
      plowhorseCount (menuAnalysis items itemMetrics) +
      puzzleCount (menuAnalysis items itemMetrics) +
      dogCount (menuAnalysis items itemMetrics) = items.length := by
  have hmem : ∀ e ∈ menuAnalysis items itemMetrics,
      e.classification = "Star" ∨ e.classification = "Plowhorse" ∨
      e.classification = "Puzzle" ∨ e.classification = "Dog" := by
    intro e he
    unfold menuAnalysis at he
    obtain ⟨item, -, rfl⟩ := List.mem_map.mp he
    exact classify_mem_four _ _
  refine ⟨hmem, ?_⟩
  have := counts_sum_of_mem_four _ hmem
  rw [this]
  unfold menuAnalysis
  simp

/-- C3 witness: the partition property evaluated on a concrete one-item input. -/
theorem menu_classification_partition_witness :
    starCount (menuAnalysis [⟨1, "a", 10, 4⟩] [(1, ⟨2, 20, 8, 12⟩)]) +
      plowhorseCount (menuAnalysis [⟨1, "a", 10, 4⟩] [(1, ⟨2, 20, 8, 12⟩)]) +
      puzzleCount (menuAnalysis [⟨1, "a", 10, 4⟩] [(1, ⟨2, 20, 8, 12⟩)]) +
      dogCount (menuAnalysis [⟨1, "a", 10, 4⟩] [(1, ⟨2, 20, 8, 12⟩)]) = 1 :=
  (menu_classification_partition [⟨1, "a", 10, 4⟩] [(1, ⟨2, 20, 8, 12⟩)]).2

/-- C4 counterexample: with quantities 255 and 257 (average 256) and equal
profits, the first item's two-decimal reported indices are both exactly 1.0
(raw popularity 255/256 rounds to 1.00) yet it is classified Puzzle, because
classification uses the unrounded ratios. -/
theorem reported_unit_indices_not_star :
    (menuAnalysis [⟨1, "A", 10, 4⟩, ⟨2, "B", 10, 4⟩]
        [(1, ⟨255, 256, 246, 10⟩), (2, ⟨257, 256, 246, 10⟩)]).map
      (fun e => (e.popularityIndex, e.profitabilityIndex, e.classification)) =
    [(1, 1, "Puzzle"), (1, 1, "Star")] := by
  norm_num [menuAnalysis, analysisEntry, avgQuantityOf, avgProfitOf, jsOr1, jround,
    classify, zeroMetrics, metricsFor]

/-- C4 (amended): an item whose raw popularity and profitability ratios are
at least 1 — in particular exactly 1.0, the boundary being inclusive — is
classified Star; the reported rounded indices play no role in classification. -/
theorem raw_unit_indices_star (avgQ avgP : ℚ) (item : MenuItem) (m : ItemMetrics)
    (hpop : 1 ≤ m.quantity / avgQ) (hprof : 1 ≤ m.profit / avgP) :
    (analysisEntry avgQ avgP item m).classification = "Star" := by
  unfold analysisEntry classify
  simp [hpop, hprof]

/-- C4 witness: a concrete item at raw ratios exactly 1.0 is a Star. -/
theorem raw_unit_indices_star_witness :
    (analysisEntry 5 10 ⟨1, "a", 1, 1⟩ ⟨5, 0, 0, 10⟩).classification = "Star" :=
  raw_unit_indices_star 5 10 ⟨1, "a", 1, 1⟩ ⟨5, 0, 0, 10⟩ (by norm_num) (by norm_num)

/-- C7 counterexample: a single item with zero profit gives a non-empty
metrics set whose true mean profit is 0, yet avgProfit defaults to 1
(JavaScript `|| 1` treats the number 0 as falsy). -/
theorem avgProfit_zero_mean_defaults :
    avgProfitOf [⟨1, 5, 5, 0⟩] = 1 ∧
    (([⟨1, 5, 5, 0⟩] : List ItemMetrics).map (·.profit)).sum /
      (([⟨1, 5, 5, 0⟩] : List ItemMetrics).length : ℚ) = 0 := by
  constructor <;> norm_num [avgProfitOf, jsOr1]

/-- C7 (amended): avgQuantity and avgProfit equal the arithmetic means of
quantity and profit over the items with at least one sale whenever that mean
is nonzero (negative means included); they default to 1 both when the set is
empty and when the mean is exactly 0. -/
theorem avg_equals_mean_unless_zero (ms : List ItemMetrics) :
    (((ms.map (·.quantity)).sum / (ms.length : ℚ) = 0 → avgQuantityOf ms = 1) ∧
     ((ms.map (·.quantity)).sum / (ms.length : ℚ) ≠ 0 →
        avgQuantityOf ms = (ms.map (·.quantity)).sum / (ms.length : ℚ))) ∧
    (((ms.map (·.profit)).sum / (ms.length : ℚ) = 0 → avgProfitOf ms = 1) ∧
     ((ms.map (·.profit)).sum / (ms.length : ℚ) ≠ 0 →
        avgProfitOf ms = (ms.map (·.profit)).sum / (ms.length : ℚ))) := by
  unfold avgQuantityOf avgProfitOf jsOr1
  refine ⟨⟨fun h => ?_, fun h => ?_⟩, ⟨fun h => ?_, fun h => ?_⟩⟩ <;> simp [h]

/-- C7 witness: a negative mean profit is used as-is, not defaulted. -/
theorem avg_equals_mean_unless_zero_witness :
    avgProfitOf [⟨2, 0, 0, -4⟩] = -4 := by
  have h := (avg_equals_mean_unless_zero [⟨2, 0, 0, -4⟩]).2.2 (by norm_num)
  simpa using h

/-! ### Demand forecaster (src/unnamed/part_004, POST /api/forecast/covers) -/

/-- Day-of-week statistics: one value of the `dowMeans` map
(`mean` and population standard deviation `std` of the daily covers). -/
structure DowStats where
  mean : ℚ
  std : ℚ
deriving DecidableEq

/-- One element of the `predictions` array pushed into the JSON response. -/
structure ForecastResponseDay where
  predictedCovers : ℤ
  confidenceLow : ℤ
  confidenceHigh : ℤ
deriving DecidableEq

/-- The row upserted into the `demandForecast` table for the same date. -/
structure ForecastUpsertRow where
  predictedCovers : ℤ
  confidenceLow : ℤ
  confidenceHigh : ℤ
  modelVersion : String
deriving DecidableEq

/-- One iteration of the forecast loop: `variation` is the sampled
`(Math.random() - 0.5) * stats.std * 0.5`, `predicted` is
`Math.round(stats.mean + variation)`; the response day floors
`predictedCovers` at 0 while the upserted row stores `predicted` as is. -/
def forecastStep (stats : DowStats) (variation : ℚ) :
    ForecastResponseDay × ForecastUpsertRow :=
  let predicted : ℤ := jround (stats.mean + variation)
  ( { predictedCovers := max 0 predicted
      confidenceLow := max 0 (jround ((predicted : ℚ) - stats.std * 1.5))
      confidenceHigh := jround ((predicted : ℚ) + stats.std * 1.5) },
    { predictedCovers := predicted
      confidenceLow := max 0 (jround ((predicted : ℚ) - stats.std * 1.5))
      confidenceHigh := jround ((predicted : ℚ) + stats.std * 1.5)
      modelVersion := "dow_average_v1" } )

/-- The forecast generation loop over the requested days: each day looks up
its day-of-week statistics (`dowMeans.get(dow) || \x7b mean: 50, std: 10 \x7d`)
and runs one `forecastStep` with that day's random variation. -/
def forecastCovers (dowMeans : ℕ → Option DowStats) (dows : List ℕ)
    (variations : List ℚ) : List (ForecastResponseDay × ForecastUpsertRow) :=
  List.zipWith (fun dow v => forecastStep ((dowMeans dow).getD ⟨50, 10⟩) v) dows variations

lemma jround_intCast_add_half (p : ℤ) : jround ((p : ℚ)) = p := by
  unfold jround
  rw [Int.floor_eq_iff]
  constructor <;> push_cast <;> linarith

/-- C2: for any day-of-week statistics with nonnegative mean and standard
deviation and any variation within `[-std/4, std/4]`, the generated response
day satisfies `confidenceLow ≤ predictedCovers ≤ confidenceHigh` and
`0 ≤ confidenceLow`. -/
theorem confidence_band_brackets (stats : DowStats) (v : ℚ)
    (hm : 0 ≤ stats.mean) (hs : 0 ≤ stats.std)
    (hlo : -(stats.std / 4) ≤ v) (hhi : v ≤ stats.std / 4) :
    (forecastStep stats v).1.confidenceLow ≤ (forecastStep stats v).1.predictedCovers ∧
    (forecastStep stats v).1.predictedCovers ≤ (forecastStep stats v).1.confidenceHigh ∧
    0 ≤ (forecastStep stats v).1.confidenceLow := by
  simp only [forecastStep, jround]
  set p : ℤ := ⌊stats.mean + v + 1/2⌋ with hp
  have hfloor_le : (⌊(p : ℚ) - stats.std * 1.5 + 1/2⌋ : ℤ) ≤ p := by
    have h1 : (p : ℚ) - stats.std * 1.5 + 1/2 ≤ (p : ℚ) + 1/2 := by linarith
    calc (⌊(p : ℚ) - stats.std * 1.5 + 1/2⌋ : ℤ) ≤ ⌊(p : ℚ) + 1/2⌋ := Int.floor_le_floor h1
      _ = p := by
        rw [Int.floor_eq_iff]
        constructor <;> push_cast <;> linarith
  refine ⟨?_, ?_, le_max_left _ _⟩
  · exact max_le_max le_rfl hfloor_le
  · rcases le_or_lt 0 p with h0 | h0
    · rw [max_eq_right h0]
      rw [Int.le_floor]
      push_cast
      linarith
    · rw [max_eq_left h0.le]
      rw [Int.le_floor]
      have hlb : stats.mean + v + 1/2 - 1 < (p : ℚ) := Int.sub_one_lt_floor _
      push_cast
      nlinarith

/-- C2 witness: the bracketing evaluated at default statistics and zero
variation. -/
theorem confidence_band_brackets_witness :
    (forecastStep ⟨50, 10⟩ 0).1.confidenceLow ≤ (forecastStep ⟨50, 10⟩ 0).1.predictedCovers ∧
    (forecastStep ⟨50, 10⟩ 0).1.predictedCovers ≤ (forecastStep ⟨50, 10⟩ 0).1.confidenceHigh ∧
    0 ≤ (forecastStep ⟨50, 10⟩ 0).1.confidenceLow :=
  confidence_band_brackets ⟨50, 10⟩ 0 (by norm_num) (by norm_num) (by norm_num) (by norm_num)

lemma mem_zipWith {α β γ : Type} {f : α → β → γ} {as : List α} {bs : List β} {c : γ}
    (hc : c ∈ List.zipWith f as bs) : ∃ a ∈ as, ∃ b ∈ bs, c = f a b := by
  induction as generalizing bs with
  | nil => simp at hc
  | cons a as ih =>
    cases bs with
    | nil => simp at hc
    | cons b bs =>
      rcases List.mem_cons.mp hc with h | h
      · exact ⟨a, List.mem_cons_self a as, b, List.mem_cons_self b bs, h⟩
      · obtain ⟨a', ha', b', hb', rfl⟩ := ih h
        exact ⟨a', List.mem_cons_of_mem a ha', b', List.mem_cons_of_mem b hb', rfl⟩

/-- C9: with no historical orders (an empty day-of-week statistics map),
every generated day uses the defaults mean 50 and std 10: it equals a
`forecastStep` on `⟨50, 10⟩` with that day's variation, its response
`predictedCovers` lies in `[48, 53]`, and its confidence band is the stored
prediction ± 15 with the low end floored at 0. -/
theorem default_stats_when_no_history (dows : List ℕ) (variations : List ℚ)
    (hv : ∀ w ∈ variations, -(5/2 : ℚ) ≤ w ∧ w ≤ 5/2) :
    ∀ e ∈ forecastCovers (fun _ => none) dows variations,
      ∃ v, (-(5/2 : ℚ) ≤ v ∧ v ≤ 5/2) ∧ e = forecastStep ⟨50, 10⟩ v ∧
        48 ≤ e.1.predictedCovers ∧ e.1.predictedCovers ≤ 53 ∧
        e.1.confidenceLow = max 0 (e.2.predictedCovers - 15) ∧
        e.1.confidenceHigh = e.2.predictedCovers + 15 := by
  intro e he
  obtain ⟨dow, -, v, hvmem, rfl⟩ := mem_zipWith he
  obtain ⟨hv1, hv2⟩ := hv v hvmem
  refine ⟨v, ⟨hv1, hv2⟩, rfl, ?_, ?_, ?_, ?_⟩
  · show (48 : ℤ) ≤ max 0 (jround ((50 : ℚ) + v))
    have h48 : (48 : ℤ) ≤ jround ((50 : ℚ) + v) := by
      unfold jround
      rw [Int.le_floor]
      push_cast
      linarith
    exact le_trans h48 (le_max_right _ _)
  · show max 0 (jround ((50 : ℚ) + v)) ≤ 53
    have h53 : jround ((50 : ℚ) + v) ≤ 53 := by
      unfold jround
      rw [Int.floor_le_iff]
      push_cast
      linarith
    exact max_le (by norm_num) h53
  · show max 0 (jround ((jround ((50 : ℚ) + v) : ℚ) - (10 : ℚ) * 1.5)) = _
    congr 1
    have : ((jround ((50 : ℚ) + v) : ℚ)) - (10 : ℚ) * 1.5 =
        ((jround ((50 : ℚ) + v) - 15 : ℤ) : ℚ) := by push_cast; ring
    rw [this, jround_intCast_add_half]
    rfl
  · show jround ((jround ((50 : ℚ) + v) : ℚ) + (10 : ℚ) * 1.5) = _
    have : ((jround ((50 : ℚ) + v) : ℚ)) + (10 : ℚ) * 1.5 =
        ((jround ((50 : ℚ) + v) + 15 : ℤ) : ℚ) := by push_cast; ring
    rw [this, jround_intCast_add_half]
    rfl

/-- C9 witness: a one-day forecast with empty history and zero variation. -/
theorem default_stats_when_no_history_witness :
    ∃ v, (-(5/2 : ℚ) ≤ v ∧ v ≤ 5/2) ∧
      forecastStep ⟨50, 10⟩ 0 = forecastStep ⟨50, 10⟩ v ∧
      48 ≤ (forecastStep ⟨50, 10⟩ 0).1.predictedCovers ∧
      (forecastStep ⟨50, 10⟩ 0).1.predictedCovers ≤ 53 ∧
      (forecastStep ⟨50, 10⟩ 0).1.confidenceLow =
        max 0 ((forecastStep ⟨50, 10⟩ 0).2.predictedCovers - 15) ∧
      (forecastStep ⟨50, 10⟩ 0).1.confidenceHigh =
        (forecastStep ⟨50, 10⟩ 0).2.predictedCovers + 15 :=
  default_stats_when_no_history [0] [0] (by norm_num)
    (forecastStep ⟨50, 10⟩ 0) (by simp [forecastCovers])

/-- C10: the upserted row stores the unfloored rounded prediction while the
response floors it at 0, and under a negative prediction (e.g. mean 0,
std 10, variation -2.5) the stored value is negative while the response
reports 0, so the two disagree. -/
theorem stored_forecast_unfloored :
    (∀ (stats : DowStats) (v : ℚ),
        (forecastStep stats v).2.predictedCovers = jround (stats.mean + v) ∧
        (forecastStep stats v).1.predictedCovers = max 0 (jround (stats.mean + v))) ∧
    ∃ (stats : DowStats) (v : ℚ),
      (forecastStep stats v).2.predictedCovers < 0 ∧
      (forecastStep stats v).1.predictedCovers = 0 ∧
      (forecastStep stats v).2.predictedCovers ≠ (forecastStep stats v).1.predictedCovers := by
  constructor
  · exact fun stats v => ⟨rfl, rfl⟩
  · refine ⟨⟨0, 10⟩, -(5/2), ?_, ?_, ?_⟩ <;>
      norm_num [forecastStep, jround] <;>
      rw [show (0 : ℚ) + -(5/2) + 1/2 = ((-2 : ℤ) : ℚ) by norm_num, Int.floor_intCast] <;>
      norm_num

/-! ### Customer churn ranking (src/unnamed/part_005, GET /api/customers/at-risk) -/

/-- Customer row fields consumed by the at-risk ranking (remaining columns
are passed through unchanged and do not affect filtering or ordering). -/
structure Customer where
  id : ℕ
  churnRisk : ℚ
deriving DecidableEq

/-- Descending churn-risk order used by `orderBy: \x7b churnRisk: 'desc' \x7d`:
`a` precedes `b` when `b.churnRisk ≤ a.churnRisk`. -/
def riskDesc (a b : Customer) : Prop := b.churnRisk ≤ a.churnRisk

instance : DecidableRel riskDesc := fun a b =>
  inferInstanceAs (Decidable (b.churnRisk ≤ a.churnRisk))

instance : IsTotal Customer riskDesc := ⟨fun a b => le_total b.churnRisk a.churnRisk⟩

instance : IsTrans Customer riskDesc := ⟨fun _ _ _ h1 h2 => le_trans h2 h1⟩

/-- The at-risk query: filter `churnRisk ≥ minRisk`, order by churn risk
descending, take `limit` rows. The database sort is modelled
deterministically by a stable insertion sort. -/
def atRiskQuery (customers : List Customer) (minRisk : ℚ) (limit : ℕ) : List Customer :=
  (((customers.filter fun c => decide (minRisk ≤ c.churnRisk)).insertionSort riskDesc).take limit)

/-- The summary's `avgChurnRisk`: `Math.round((Σ churnRisk / count) * 100)`.
With zero matching customers the JavaScript expression is `0/0 = NaN`
(serialized as `null`), modelled here as `none`. -/
def atRiskAvgChurnRisk (risks : List ℚ) : Option ℤ :=
  if risks.isEmpty then none
  else some (jround (risks.sum / risks.length * 100))

/-- C5 counterexample: with zero customers matching the at-risk filter the
summary's avgChurnRisk is NaN (modelled `none`), not the number 0. -/
theorem empty_at_risk_avg_not_zero : atRiskAvgChurnRisk [] ≠ some 0 := by
  simp [atRiskAvgChurnRisk]

/-- C5 (amended): the at-risk summary's avgChurnRisk division is not guarded:
it is NaN (serialized as null) exactly when zero customers match the filter,
and the rounded percentage mean otherwise. -/
theorem at_risk_avg_nan_iff_empty (risks : List ℚ) :
    atRiskAvgChurnRisk risks = none ↔ risks = [] := by
  unfold atRiskAvgChurnRisk
  cases risks <;> simp

/-- C5 witness: the NaN characterization applied to the empty list. -/
theorem at_risk_avg_nan_iff_empty_witness : atRiskAvgChurnRisk [] = none :=
  (at_risk_avg_nan_iff_empty []).mpr rfl

section SortFilter

variable {α : Type} (r : α → α → Prop) [DecidableRel r]

lemma orderedInsert_eq_cons (x : α) (m : List α) (h : ∀ z ∈ m, r x z) :
    List.orderedInsert r x m = x :: m := by
  cases m with
  | nil => rfl
  | cons z m => rw [List.orderedInsert, if_pos (h z (List.mem_cons_self z m))]

lemma filter_orderedInsert_pos [IsTotal α r] [IsTrans α r] (p : α → Bool) (x : α)
    (hx : p x = true) :
    ∀ l : List α, l.Sorted r →
      (List.orderedInsert r x l).filter p = List.orderedInsert r x (l.filter p)
  | [], _ => by simp [hx]
  | y :: l, hs => by
    rw [List.orderedInsert]
    by_cases hr : r x y
    · rw [if_pos hr]
      by_cases hy : p y
      · simp only [List.filter_cons, hx, hy, if_pos]
        rw [orderedInsert_eq_cons]
        intro z hz
        rcases List.mem_cons.mp hz with rfl | hz'
        · exact hr
        · exact IsTrans.trans _ _ _ hr
            (List.rel_of_sorted_cons hs z (List.mem_of_mem_filter hz'))
      · simp only [List.filter_cons, hx, hy, if_pos, if_neg, Bool.false_eq_true,
          if_false, ite_true]
        rw [orderedInsert_eq_cons]
        intro z hz
        exact IsTrans.trans _ _ _ hr
          (List.rel_of_sorted_cons hs z (List.mem_of_mem_filter hz))
    · rw [if_neg hr]
      by_cases hy : p y
      · simp only [List.filter_cons, hy, ite_true,
          filter_orderedInsert_pos p x hx l hs.of_cons]
        rw [List.orderedInsert, if_neg hr]
      · simp only [List.filter_cons, hy, Bool.false_eq_true, if_false,
          filter_orderedInsert_pos p x hx l hs.of_cons]

lemma filter_orderedInsert_neg (p : α → Bool) (x : α) (hx : p x = false) :
    ∀ l : List α, (List.orderedInsert r x l).filter p = l.filter p
  | [] => by simp [hx]
  | y :: l => by
    rw [List.orderedInsert]
    by_cases hr : r x y
    · rw [if_pos hr]
      simp [List.filter_cons, hx]
    · rw [if_neg hr]
      by_cases hy : p y <;>
        simp [List.filter_cons, hy, filter_orderedInsert_neg p x hx l]

lemma filter_insertionSort [IsTotal α r] [IsTrans α r] (p : α → Bool) :
    ∀ l : List α, (List.insertionSort r l).filter p = List.insertionSort r (l.filter p)
  | [] => rfl
  | x :: l => by
    rw [List.insertionSort]
    by_cases hx : p x
    · rw [filter_orderedInsert_pos r p x hx _ (List.sorted_insertionSort r l),
        filter_insertionSort p l, List.filter_cons, if_pos hx, List.insertionSort]
    · rw [filter_orderedInsert_neg r p x (Bool.not_eq_true _ ▸ hx), filter_insertionSort p l,
        List.filter_cons]
      simp [hx]

lemma filter_eq_takeWhile_of_sorted (p : α → Bool)
    (hcompat : ∀ a b, r a b → p b = true → p a = true) :
    ∀ l : List α, l.Sorted r → l.filter p = l.takeWhile p
  | [], _ => rfl
  | x :: l, hs => by
    rw [List.filter_cons, List.takeWhile_cons]
    by_cases hx : p x
    · rw [if_pos hx, if_pos hx, filter_eq_takeWhile_of_sorted p hcompat l hs.of_cons]
    · rw [if_neg hx, if_neg hx]
      rw [List.filter_eq_nil_iff]
      intro z hz hpz
      exact hx (hcompat x z (List.rel_of_sorted_cons hs z hz) hpz)

lemma mem_take_of_mem_takeWhile_take (p : α → Bool) (n : ℕ) (l : List α) (x : α)
    (hx : x ∈ (l.takeWhile p).take n) : x ∈ l.take n := by
  have hdecomp : (l.takeWhile p).take n ++
      (l.dropWhile p).take (n - (l.takeWhile p).length) = l.take n := by
    rw [← List.take_append_eq_append_take, List.takeWhile_append_dropWhile]
  rw [← hdecomp]
  exact List.mem_append_left _ hx

end SortFilter

lemma atRiskQuery_subset_of_le (cs : List Customer) (L : ℕ) {m1 m2 : ℚ} (hm : m2 ≤ m1) :
    ∀ x ∈ atRiskQuery cs m1 L, x ∈ atRiskQuery cs m2 L := by
  intro x hx
  unfold atRiskQuery at hx ⊢
  have hsub : cs.filter (fun c => decide (m1 ≤ c.churnRisk)) =
      (cs.filter fun c => decide (m2 ≤ c.churnRisk)).filter
        fun c => decide (m1 ≤ c.churnRisk) := by
    rw [List.filter_filter]
    refine (List.filter_congr fun c _ => ?_).symm
    by_cases h1 : m1 ≤ c.churnRisk
    · have h2 : m2 ≤ c.churnRisk := le_trans hm h1
      simp [h1, h2]
    · simp [h1]
  rw [hsub, ← filter_insertionSort riskDesc _ _] at hx
  rw [filter_eq_takeWhile_of_sorted riskDesc _
    (fun a b hr hb => by
      simp only [decide_eq_true_eq] at hb ⊢
      exact le_trans hb hr) _ (List.sorted_insertionSort riskDesc _)] at hx
  exact mem_take_of_mem_takeWhile_take _ _ _ _ hx

/-- C8: the at-risk output is sorted in descending churn risk, and with the
same customer population and limit, every customer returned for
minRisk = 0.9 is also returned for minRisk = 0.5. -/
theorem at_risk_sorted_and_monotone (cs : List Customer) (L : ℕ) :
    (atRiskQuery cs (9/10) L).Sorted riskDesc ∧
    ∀ x ∈ atRiskQuery cs (9/10) L, x ∈ atRiskQuery cs (1/2) L := by
  constructor
  · exact List.Pairwise.sublist (List.take_sublist L _)
      (List.sorted_insertionSort riskDesc _)
  · exact atRiskQuery_subset_of_le cs L (by norm_num)

/-- C8 witness: a concrete two-customer population where the 0.9 query's
single row also appears in the 0.5 query. -/
theorem at_risk_sorted_and_monotone_witness :
    (⟨1, 19/20⟩ : Customer) ∈ atRiskQuery [⟨1, 19/20⟩, ⟨2, 3/5⟩] (1/2) 5 :=
  (at_risk_sorted_and_monotone [⟨1, 19/20⟩, ⟨2, 3/5⟩] 5).2 ⟨1, 19/20⟩ (by
    norm_num [atRiskQuery, riskDesc, List.insertionSort, List.orderedInsert])

/-! ### Labor allocator (src/server/src/routes/staff.ts, POST /api/staff/schedule/optimize) -/

/-- Active staff row fields consumed by the optimizer. -/
structure Staff where
  id : ℕ
  name : String
  role : String
  hourlyRate : ℚ
deriving DecidableEq

/-- A demand-forecast row read back for the requested week; `date` stands in
for the forecast date (used only to label the day). -/
structure ForecastRow where
  date : ℕ
  predictedCovers : Option ℤ
deriving DecidableEq

/-- `forecast.predictedCovers || 50`: a missing value defaults to 50, and so
does a stored 0 (JavaScript falsy), while negative stored values pass through. -/
def coversOf (v : Option ℤ) : ℤ :=
  match v with
  | none => 50
  | some n => if n = 0 then 50 else n

/-- `Math.ceil(covers / 20)`: one server per 20 covers. -/
def serversNeeded (covers : ℤ) : ℤ := ⌈(covers : ℚ) / 20⌉

/-- `Math.ceil(covers / 40)`: one cook per 40 covers. -/
def cooksNeeded (covers : ℤ) : ℤ := ⌈(covers : ℚ) / 40⌉

/-- One element of a day's `suggestedShifts` (the shift window is the fixed
11:00–20:00 slot of the day; its ISO start/end strings are date formatting
and carry no further information beyond `hours = 9`). -/
structure SuggestedShift where
  staffId : ℕ
  staffName : String
  role : String
  hours : ℚ
deriving DecidableEq

/-- One element of the `recommendations` array. -/
structure DayRecommendation where
  date : ℕ
  expectedCovers : ℤ
  servers : ℤ
  cooks : ℤ
  total : ℤ
  suggestedShifts : List SuggestedShift
deriving DecidableEq

/-- The inner server loop `for (i = 0; i < serversNeeded && i < servers.length; i++)`:
walk the server roster in order while slots remain, pushing a 9-hour shift and
adding 9 to the staff-hours map whenever the server's current hours are
strictly below `maxH` (`currentHours < maxHoursPerEmployee`), and skipping the
server otherwise. -/
def assignLoop (maxH : ℚ) : List Staff → ℕ → (ℕ → ℚ) → List SuggestedShift × (ℕ → ℚ)
  | [], _, hrs => ([], hrs)
  | _ :: _, 0, hrs => ([], hrs)
  | s :: rest, n + 1, hrs =>
    let cur := hrs s.id
    if cur < maxH then
      let hrs2 : ℕ → ℚ := fun j => if j = s.id then cur + 9 else hrs j
      let out := assignLoop maxH rest n hrs2
      (⟨s.id, s.name, "server", 9⟩ :: out.1, out.2)
    else
      assignLoop maxH rest n hrs

/-- One day of the optimizer: per-role target headcounts from the fixed
coverage ratios, then the greedy server assignment. Cooks and the +1
host/manager appear only in the headcounts. -/
def processDay (maxH : ℚ) (staff : List Staff) (hrs : ℕ → ℚ) (f : ForecastRow) :
    DayRecommendation × (ℕ → ℚ) :=
  let covers := coversOf f.predictedCovers
  let sN := serversNeeded covers
  let cN := cooksNeeded covers
  let servers := staff.filter fun s => s.role = "server"
  let out := assignLoop maxH servers sN.toNat hrs
  (⟨f.date, covers, sN, cN, sN + cN + 1, out.1⟩, out.2)

/-- The optimizer's outer loop over the week's forecast rows, threading the
`staffHours` map (initially empty, i.e. the constant-0 function). -/
def optimizeSchedule (maxH : ℚ) (staff : List Staff) :
    List ForecastRow → (ℕ → ℚ) → List DayRecommendation × (ℕ → ℚ)
  | [], hrs => ([], hrs)
  | f :: fs, hrs =>
    let day := processDay maxH staff hrs f
    let rest := optimizeSchedule maxH staff fs day.2
    (day.1 :: rest.1, rest.2)

lemma assignLoop_hours (maxH : ℚ) (servers : List Staff) :
    ∀ (n : ℕ) (hrs : ℕ → ℚ), (∀ j, hrs j < maxH + 9) →
      ∀ j, (assignLoop maxH servers n hrs).2 j < maxH + 9 := by
  induction servers with
  | nil => intro n hrs h j; simpa [assignLoop] using h j
  | cons s rest ih =>
    intro n hrs h j
    cases n with
    | zero => simpa [assignLoop] using h j
    | succ n =>
      simp only [assignLoop]
      by_cases hc : hrs s.id < maxH
      · rw [if_pos hc]
        dsimp only
        refine ih n _ ?_ j
        intro j'
        by_cases hj : j' = s.id
        · rw [if_pos hj]
          linarith
        · simp only [if_neg hj]
          exact h j'
      · rw [if_neg hc]
        exact ih n hrs h j

lemma optimize_hours (maxH : ℚ) (staff : List Staff) :
    ∀ (rows : List ForecastRow) (hrs : ℕ → ℚ), (∀ j, hrs j < maxH + 9) →
      ∀ j, (optimizeSchedule maxH staff rows hrs).2 j < maxH + 9 := by
  intro rows
  induction rows with
  | nil => intro hrs h j; simpa [optimizeSchedule] using h j
  | cons f fs ih =>
    intro hrs h j
    simp only [optimizeSchedule]
    refine ih _ ?_ j
    intro j'
    unfold processDay
    dsimp only
    exact assignLoop_hours maxH _ _ hrs h j'

/-- C1 counterexample: with the default 40-hour cap, a single server and five
forecast days each needing one server, the server's cumulative assigned hours
reach 45 > 40 — the code checks `currentHours < maxHoursPerEmployee` before
adding the 9-hour shift, so a server at 36 hours is still assigned. -/
theorem staff_hours_cap_exceeded :
    (optimizeSchedule 40 [⟨1, "A", "server", 15⟩]
      [⟨1, some 20⟩, ⟨2, some 20⟩, ⟨3, some 20⟩, ⟨4, some 20⟩, ⟨5, some 20⟩]
      (fun _ => 0)).2 1 = 45 ∧ (40 : ℚ) < 45 := by
  constructor
  · norm_num [optimizeSchedule, processDay, assignLoop, coversOf, serversNeeded, cooksNeeded]
  · norm_num

/-- C1 (amended): a staff member is skipped only when their cumulative hours
have already reached `maxHoursPerEmployee`, so weekly totals stay strictly
below `maxHoursPerEmployee + 9` (one shift past the cap) rather than at or
below the cap itself. -/
theorem weekly_hours_lt_cap_plus_shift (maxH : ℚ) (staff : List Staff)
    (rows : List ForecastRow) (h0 : 0 ≤ maxH) :
    ∀ j, (optimizeSchedule maxH staff rows (fun _ => 0)).2 j < maxH + 9 :=
  optimize_hours maxH staff rows (fun _ => 0) (fun _ => by show (0 : ℚ) < maxH + 9; linarith)

/-- C1 witness: the amended bound evaluated on the counterexample run. -/
theorem weekly_hours_lt_cap_plus_shift_witness :
    (optimizeSchedule 40 [⟨1, "A", "server", 15⟩]
      [⟨1, some 20⟩, ⟨2, some 20⟩, ⟨3, some 20⟩, ⟨4, some 20⟩, ⟨5, some 20⟩]
      (fun _ => 0)).2 1 < 40 + 9 :=
  weekly_hours_lt_cap_plus_shift 40 [⟨1, "A", "server", 15⟩]
    [⟨1, some 20⟩, ⟨2, some 20⟩, ⟨3, some 20⟩, ⟨4, some 20⟩, ⟨5, some 20⟩]
    (by norm_num) 1

lemma assignLoop_shifts (maxH : ℚ) (servers : List Staff) :
    ∀ (n : ℕ) (hrs : ℕ → ℚ), ∀ sh ∈ (assignLoop maxH servers n hrs).1,
      sh.role = "server" ∧ sh.hours = 9 ∧ sh.staffId ∈ servers.map Staff.id := by
  induction servers with
  | nil => intro n hrs sh hsh; simp [assignLoop] at hsh
  | cons s rest ih =>
    intro n hrs sh hsh
    cases n with
    | zero => simp [assignLoop] at hsh
    | succ n =>
      simp only [assignLoop] at hsh
      by_cases hc : hrs s.id < maxH
      · rw [if_pos hc] at hsh
        dsimp only at hsh
        rcases List.mem_cons.mp hsh with rfl | hsh'
        · exact ⟨rfl, rfl, by simp⟩
        · obtain ⟨h1, h2, h3⟩ := ih n _ sh hsh'
          exact ⟨h1, h2, by simp [h3]⟩
      · rw [if_neg hc] at hsh
        obtain ⟨h1, h2, h3⟩ := ih n hrs sh hsh
        exact ⟨h1, h2, by simp [h3]⟩

lemma assignLoop_length_le (maxH : ℚ) (servers : List Staff) :
    ∀ (n : ℕ) (hrs : ℕ → ℚ),
      (assignLoop maxH servers n hrs).1.length ≤ min n servers.length := by
  induction servers with
  | nil => intro n hrs; simp [assignLoop]
  | cons s rest ih =>
    intro n hrs
    cases n with
    | zero => simp [assignLoop]
    | succ n =>
      simp only [assignLoop]
      by_cases hc : hrs s.id < maxH
      · rw [if_pos hc]
        dsimp only
        simp only [List.length_cons, List.length]
        have := ih n (fun j => if j = s.id then hrs s.id + 9 else hrs j)
        omega
      · rw [if_neg hc]
        have := ih n hrs
        simp only [List.length_cons]
        omega

lemma assignLoop_length_eq (maxH : ℚ) (servers : List Staff) :
    ∀ (n : ℕ) (hrs : ℕ → ℚ), (∀ s ∈ servers, hrs s.id < maxH) →
      (servers.map Staff.id).Nodup →
      (assignLoop maxH servers n hrs).1.length = min n servers.length := by
  induction servers with
  | nil => intro n hrs _ _; simp [assignLoop]
  | cons s rest ih =>
    intro n hrs hcap hnd
    cases n with
    | zero => simp [assignLoop]
    | succ n =>
      simp only [assignLoop]
      rw [if_pos (hcap s (List.mem_cons_self s rest))]
      dsimp only
      simp only [List.length_cons]
      rw [List.map_cons, List.nodup_cons] at hnd
      have hrec := ih n (fun j => if j = s.id then hrs s.id + 9 else hrs j)
        (fun t ht => by
          have hne : t.id ≠ s.id := fun he =>
            hnd.1 (he ▸ List.mem_map_of_mem Staff.id ht)
          simp only [if_neg hne]
          exact hcap t (List.mem_cons_of_mem s ht))
        hnd.2
      rw [hrec]
      omega

lemma mem_optimizeSchedule (maxH : ℚ) (staff : List Staff) :
    ∀ (rows : List ForecastRow) (hrs : ℕ → ℚ) (d : DayRecommendation),
      d ∈ (optimizeSchedule maxH staff rows hrs).1 →
      ∃ (hrs2 : ℕ → ℚ) (f : ForecastRow), f ∈ rows ∧ d = (processDay maxH staff hrs2 f).1 := by
  intro rows
  induction rows with
  | nil => intro hrs d hd; simp [optimizeSchedule] at hd
  | cons f fs ih =>
    intro hrs d hd
    simp only [optimizeSchedule] at hd
    rcases List.mem_cons.mp hd with rfl | hd'
    · exact ⟨hrs, f, List.mem_cons_self f fs, rfl⟩
    · obtain ⟨hrs2, f', hf', rfl⟩ := ih _ _ hd'
      exact ⟨hrs2, f', List.mem_cons_of_mem f hf', rfl⟩

/-- C6 (amended): the optimizer only ever assigns servers. Every suggested
shift of every recommended day is a 9-hour server shift for a rostered
server, and a day's shift count never exceeds `min(serversNeeded, available
servers)`; when every rostered server (with distinct ids) is under the cap,
the count equals that minimum — all available servers are assigned and any
shortfall against the target headcount is silently under-staffed. Cooks
appear in the target headcounts only and never receive shifts. -/
theorem servers_only_greedy_understaffed (maxH : ℚ) (staff : List Staff)
    (rows : List ForecastRow) (hrs0 : ℕ → ℚ) :
    (∀ d ∈ (optimizeSchedule maxH staff rows hrs0).1,
        (∀ sh ∈ d.suggestedShifts,
            sh.role = "server" ∧ sh.hours = 9 ∧
            sh.staffId ∈ (staff.filter fun s => s.role = "server").map Staff.id) ∧
        d.suggestedShifts.length ≤
          min d.servers.toNat (staff.filter fun s => s.role = "server").length) ∧
    (∀ (hrs : ℕ → ℚ) (f : ForecastRow),
        (∀ s ∈ staff.filter (fun s => s.role = "server"), hrs s.id < maxH) →
        ((staff.filter fun s => s.role = "server").map Staff.id).Nodup →
        (processDay maxH staff hrs f).1.suggestedShifts.length =
          min (serversNeeded (coversOf f.predictedCovers)).toNat
            (staff.filter fun s => s.role = "server").length) := by
  constructor
  · intro d hd
    obtain ⟨hrs2, f, -, rfl⟩ := mem_optimizeSchedule maxH staff rows hrs0 d hd
    unfold processDay
    dsimp only
    exact ⟨fun sh hsh => assignLoop_shifts maxH _ _ hrs2 sh hsh,
      assignLoop_length_le maxH _ _ hrs2⟩
  · intro hrs f hcap hnd
    unfold processDay
    dsimp only
    exact assignLoop_length_eq maxH _ _ hrs hcap hnd

/-- C6 witness: one server, one forecast day needing one server — the day's
single suggested shift matches the minimum of target and availability. -/
theorem servers_only_greedy_understaffed_witness :
    (processDay 40 [⟨1, "A", "server", 15⟩] (fun _ => 0) ⟨1, some 20⟩).1.suggestedShifts.length =
      min (serversNeeded (coversOf (⟨1, some 20⟩ : ForecastRow).predictedCovers)).toNat
        (([⟨1, "A", "server", 15⟩] : List Staff).filter fun s => s.role = "server").length :=
  (servers_only_greedy_understaffed 40 [⟨1, "A", "server", 15⟩] [] (fun _ => 0)).2
    (fun _ => 0) ⟨1, some 20⟩ (fun s _ => by norm_num) (by simp)

/-- C6 counterexample: a forecast of 40 covers targets one cook and the
roster contains exactly one cook, yet the recommended day carries no
suggested shifts — cooks are never assigned. -/
theorem cooks_never_assigned :
    ((optimizeSchedule 40 [⟨2, "C", "cook", 15⟩] [⟨1, some 40⟩] (fun _ => 0)).1.map
      fun d => (d.cooks, d.suggestedShifts)) = [(1, [])] := by
  norm_num [optimizeSchedule, processDay, assignLoop, coversOf, serversNeeded, cooksNeeded]

end FlavorMetrics
